import Mathlib

/-!
Verification development for the Beevo real-time voice branding assistant.

The definitions below are shallow embeddings of the TypeScript source:
`BrandStateManager` and `SessionManager` (server/src/sessions/SessionManager.ts),
`ToolHandler` (server/src/gemini/ToolHandler.ts),
`ToolDecisionAgent` (server/src/gemini/ToolDecisionAgent.ts),
the client playback scheduler (client/src/hooks/useAudioStream.ts) and the
client-direct Architect capture pipeline (the mic lock / warmup state machine).
-/

namespace Beevo

/-- JavaScript values flowing through the brand-state mutation paths: the
call sites only ever pass strings, arrays of strings, or (via `typography[0]`
on an empty array) `undefined`. -/
inductive JVal
| vstr (s : String)
| varr (l : List String)
| vundef
deriving DecidableEq, Repr

/-- Brand DNA record: shape of `BrandDNA` in shared/types.ts as used by
`BrandStateManager`.  String-valued fields are stored as the JS value that
was assigned, mirroring that the source assigns `value` unchecked. -/
@[ext]
structure BrandDNA where
  name : JVal
  mission : JVal
  colors : List String
  typography : List String
  voice : JVal
  logoUrl : Option JVal
deriving DecidableEq, Repr

/-- Tracked progress fields: the `ProgressItem['field']` union
`name|mission|font|colors|voice`. -/
inductive ProgressField
| name
| mission
| font
| colors
| voice
deriving DecidableEq, Repr

/-- One progress entry, as in shared/types.ts: last value, a finalized
flag, and a timestamp. -/
structure ProgressItem where
  field : ProgressField
  value : JVal
  finalized : Bool
  timestamp : Nat
deriving DecidableEq, Repr

/-- State owned by one `BrandStateManager`: the DNA record plus the
progress list. -/
structure BrandState where
  dna : BrandDNA
  progress : List ProgressItem
deriving DecidableEq, Repr

/-- Constructor state of `BrandStateManager`: empty strings, empty lists,
voice defaulted to "Professional", empty progress. -/
def brandInit : BrandState :=
  { dna :=
      { name := .vstr ""
      , mission := .vstr ""
      , colors := []
      , typography := []
      , voice := .vstr "Professional"
      , logoUrl := none }
  , progress := [] }

/-- Replace the first entry whose field matches, else append at the end:
the effect of `updateProgress`'s `findIndex` / assign-or-push logic. -/
def replaceOrAppend : List ProgressItem → ProgressField → ProgressItem → List ProgressItem
| [], _, item => [item]
| p :: rest, f, item =>
    if p.field = f then item :: rest else p :: replaceOrAppend rest f item

/-- First progress entry for a field (JS `Array.prototype.find`). -/
def findField (f : ProgressField) (l : List ProgressItem) : Option ProgressItem :=
  l.find? (fun p => p.field = f)

/-- Embedding of `BrandStateManager.updateProgress`: builds a fresh item
with `finalized := false` and the current timestamp, then replaces the
existing entry for the field or pushes a new one. -/
def BrandState.updateProgress (st : BrandState) (f : ProgressField) (value : JVal) (now : Nat) : BrandState :=
  let item : ProgressItem := { field := f, value := value, finalized := false, timestamp := now }
  { st with progress := replaceOrAppend st.progress f item }

/-- JS `Array.isArray(value) ? value : [value]` coercion used for the
`colors` and `typography` cases of `BrandStateManager.update`.  The
`undefined` case wraps like any non-array value; no call site of these two
cases ever passes `undefined`. -/
def JVal.asArray : JVal → List String
| .varr l => l
| .vstr s => [s]
| .vundef => ["undefined"]

/-- JS read `this.dna.typography[0]`: head of the list, `undefined` when
the list is empty. -/
def headJVal : List String → JVal
| [] => .vundef
| s :: _ => .vstr s

/-- Embedding of `BrandStateManager.update(field, value)`: a switch on the
field name that writes the DNA field and (except for `logoUrl` and unknown
fields) refreshes the matching progress entry. -/
def BrandState.update (st : BrandState) (field : String) (value : JVal) (now : Nat) : BrandState :=
  if field = "name" then
    let st1 : BrandState := { st with dna := { st.dna with name := value } }
    st1.updateProgress .name value now
  else if field = "mission" then
    let st1 : BrandState := { st with dna := { st.dna with mission := value } }
    st1.updateProgress .mission value now
  else if field = "colors" then
    let cs := value.asArray
    let st1 : BrandState := { st with dna := { st.dna with colors := cs } }
    st1.updateProgress .colors (.varr cs) now
  else if field = "typography" then
    let ts := value.asArray
    let st1 : BrandState := { st with dna := { st.dna with typography := ts } }
    st1.updateProgress .font (headJVal ts) now
  else if field = "voice" then
    let st1 : BrandState := { st with dna := { st.dna with voice := value } }
    st1.updateProgress .voice value now
  else if field = "logoUrl" then
    { st with dna := { st.dna with logoUrl := some value } }
  else
    st

/-- Embedding of `BrandStateManager.finalize(field)`: set the finalized
flag of the first entry for the field, report whether one was found. -/
def setFinalized (b : Bool) : List ProgressItem → ProgressField → List ProgressItem
| [], _ => []
| p :: rest, f =>
    if p.field = f then { p with finalized := b } :: rest
    else p :: setFinalized b rest f

def BrandState.finalize (st : BrandState) (f : ProgressField) : BrandState × Bool :=
  match findField f st.progress with
  | some _ => ({ st with progress := setFinalized true st.progress f }, true)
  | none => (st, false)

/-- Embedding of `BrandStateManager.unfinalizeForEdit(field)`. -/
def BrandState.unfinalizeForEdit (st : BrandState) (f : ProgressField) : BrandState × Bool :=
  match findField f st.progress with
  | some _ => ({ st with progress := setFinalized false st.progress f }, true)
  | none => (st, false)

/-- Arguments of an `update_live_brand_dna` tool call: every field of the
declared schema is optional. -/
structure DNAArgs where
  brandName : Option String
  mission : Option String
  selectedColors : Option (List String)
  selectedFont : Option String
  voice : Option String
deriving DecidableEq, Repr

/-- JS truthiness of an optional string argument: present and non-empty. -/
def jsTruthyStr : Option String → Bool
| some s => s ≠ ""
| none => false

/-- Embedding of `ToolHandler.handleDNAUpdate`'s state mutation: one
conditional `updateState` per argument field, in source order, written as
five named steps.  String fields are guarded by bare truthiness,
`selectedColors` additionally by `length > 0`. -/
def stepName (o : Option String) (now : Nat) (st : BrandState) : BrandState :=
  match o with
  | some s => if s = "" then st else st.update "name" (.vstr s) now
  | none => st

def stepMission (o : Option String) (now : Nat) (st : BrandState) : BrandState :=
  match o with
  | some s => if s = "" then st else st.update "mission" (.vstr s) now
  | none => st

def stepColors (o : Option (List String)) (now : Nat) (st : BrandState) : BrandState :=
  match o with
  | some l => if 0 < l.length then st.update "colors" (.varr l) now else st
  | none => st

def stepFont (o : Option String) (now : Nat) (st : BrandState) : BrandState :=
  match o with
  | some s => if s = "" then st else st.update "typography" (.varr [s]) now
  | none => st

def stepVoice (o : Option String) (now : Nat) (st : BrandState) : BrandState :=
  match o with
  | some s => if s = "" then st else st.update "voice" (.vstr s) now
  | none => st

def handleDNAUpdate (args : DNAArgs) (st : BrandState) (now : Nat) : BrandState :=
  stepVoice args.voice now
    (stepFont args.selectedFont now
      (stepColors args.selectedColors now
        (stepMission args.mission now
          (stepName args.brandName now st))))

/-- Tag carried by the `DNA_UPDATE` message. -/
inductive UpdatedField
| name
| mission
| colors
| typography
| voice
deriving DecidableEq, Repr

/-- Embedding of `ToolHandler.getUpdatedField`: a first-match chain of JS
truthiness tests.  Note the `selectedColors` test is bare truthiness of the
array value — in JS any array, including `[]`, is truthy — so it reduces to
presence. -/
def getUpdatedField (args : DNAArgs) : UpdatedField :=
  if jsTruthyStr args.brandName then .name
  else if jsTruthyStr args.mission then .mission
  else if args.selectedColors.isSome then .colors
  else if jsTruthyStr args.selectedFont then .typography
  else if jsTruthyStr args.voice then .voice
  else .name

/-- Payload of the `DNA_UPDATE` message emitted by `handleDNAUpdate`: the
complete DNA snapshot read back from the state manager, plus the tag. -/
def emitDNAUpdate (args : DNAArgs) (st : BrandState) (now : Nat) : BrandDNA × UpdatedField :=
  ((handleDNAUpdate args st now).dna, getUpdatedField args)

/-- Modelled from the spec: whether a DNA-update argument field is carried
with a JS-truthy value, per tag position.  Array values are truthy whenever
present. -/
def dnaFieldCarried (args : DNAArgs) : UpdatedField → Bool
| .name => jsTruthyStr args.brandName
| .mission => jsTruthyStr args.mission
| .colors => args.selectedColors.isSome
| .typography => jsTruthyStr args.selectedFont
| .voice => jsTruthyStr args.voice

/-- Modelled from the spec: the tag is the first carried field in the
priority order name, mission, colors, font (typography), voice, defaulting
to name. -/
def specUpdatedField (args : DNAArgs) : UpdatedField :=
  (([UpdatedField.name, .mission, .colors, .typography, .voice].find?
      (dnaFieldCarried args)).getD .name)

/-- Operations a session can run against its `BrandStateManager`. -/
inductive BrandOp
| upd (field : String) (value : JVal) (now : Nat)
| fin (f : ProgressField)
| unfin (f : ProgressField)
deriving DecidableEq, Repr

def applyOp (st : BrandState) : BrandOp → BrandState
| .upd field value now => st.update field value now
| .fin f => (st.finalize f).1
| .unfin f => (st.unfinalizeForEdit f).1

def applyOps (st : BrandState) (ops : List BrandOp) : BrandState :=
  ops.foldl applyOp st

/-- Progress field written by `BrandStateManager.update` for a given field
name (`typography` updates the `font` progress entry; `logoUrl` and unknown
fields write no progress). -/
def progressFieldOf (field : String) : Option ProgressField :=
  if field = "name" then some .name
  else if field = "mission" then some .mission
  else if field = "colors" then some .colors
  else if field = "typography" then some .font
  else if field = "voice" then some .voice
  else none

/-- Value stored into the progress entry by `BrandStateManager.update`:
the raw value for string fields, the coerced array for `colors`, the first
element of the coerced array for `typography` (the `font` entry). -/
def progressValue (field : String) (v : JVal) : JVal :=
  if field = "colors" then .varr v.asArray
  else if field = "typography" then headJVal v.asArray
  else v

/-- Whether an operation rewrites the progress entry of field `f`. -/
def opWritesField (f : ProgressField) : BrandOp → Prop
| .upd field _ _ => progressFieldOf field = some f
| .fin _ => False
| .unfin _ => False

instance (f : ProgressField) (op : BrandOp) : Decidable (opWritesField f op) := by
  cases op <;> simp [opWritesField] <;> infer_instance

/-- Output sample rate of the playback context (shared constants:
`OUTPUT_SAMPLE_RATE = 24000`). -/
def outputSampleRate : ℚ := 24000

/-- Playback scheduler state of `useAudioStream`: the `nextPlayTimeRef`
cursor and the set of in-flight `AudioBufferSourceNode`s tracked in
`activeSourcesRef` (modelled by ids from a fresh counter). -/
structure PlaybackState where
  nextPlayTime : ℚ
  nextId : Nat
  activeSources : List Nat
deriving DecidableEq, Repr

/-- Embedding of `playAudio`'s scheduling: decode yields `numSamples`
samples, `buffer.duration = numSamples / OUTPUT_SAMPLE_RATE`, the unit
starts at `max(ctx.currentTime, nextPlayTime)` and the cursor advances to
start plus duration; the new source is tracked as in flight.  Returns the
chosen start time with the new state. -/
def playAudio (st : PlaybackState) (now : ℚ) (numSamples : Nat) : ℚ × PlaybackState :=
  let duration : ℚ := (numSamples : ℚ) / outputSampleRate
  let startTime := max now st.nextPlayTime
  (startTime,
   { nextPlayTime := startTime + duration
   , nextId := st.nextId + 1
   , activeSources := st.nextId :: st.activeSources })

/-- Embedding of `stopPlayback`: calls `stop()` on every tracked source
(returned as the list of stopped units), clears the tracking set, and
resets the cursor with `nextPlayTimeRef.current = 0`. -/
def stopPlayback (st : PlaybackState) : List Nat × PlaybackState :=
  (st.activeSources,
   { nextPlayTime := 0, nextId := st.nextId, activeSources := [] })

/-- Mutable flags of the client-direct Architect capture pipeline:
`isAudioWarmup`, `isToolProcessing`, and whether `activeSessionRef` holds a
session. -/
structure ClientAudioState where
  audioWarmup : Bool
  toolProcessing : Bool
  hasSession : Bool
deriving DecidableEq, Repr

/-- Events of one client session run: the warmup timeout firing, a
`toolCall` message (lock mic, send tool response, early return), a
`serverContent` message with or without a `modelTurn`, a capture frame from
`onaudioprocess`, and close/error cleanup. -/
inductive ClientEvent
| warmupDone
| toolCallRequested
| serverContent (hasModelTurn : Bool)
| captureFrame
| sessionClosed
deriving DecidableEq, Repr

/-- One step of the capture pipeline; the boolean reports whether a capture
frame was forwarded upstream by `sendRealtimeInput`.  A capture frame is
forwarded exactly when warmup is over, the mic lock is free, and a session
is live; `toolCall` handling sets the lock and returns before the unlock
logic; `serverContent` releases the lock only when it carries a
`modelTurn`; cleanup clears the lock, restores warmup, and drops the
session. -/
def clientStep (s : ClientAudioState) : ClientEvent → ClientAudioState × Bool
| .captureFrame =>
    (s, !s.audioWarmup && !s.toolProcessing && s.hasSession)
| .toolCallRequested =>
    ({ s with toolProcessing := true }, false)
| .serverContent hasModelTurn =>
    (if hasModelTurn && s.toolProcessing then { s with toolProcessing := false } else s, false)
| .warmupDone =>
    ({ s with audioWarmup := false }, false)
| .sessionClosed =>
    ({ audioWarmup := true, toolProcessing := false, hasSession := false }, false)

/-- Run a list of events, counting upstream-forwarded capture frames. -/
def runClient : ClientAudioState → List ClientEvent → ClientAudioState × Nat
| s, [] => (s, 0)
| s, e :: rest =>
    let step := clientStep s e
    let tail := runClient step.1 rest
    (tail.1, (if step.2 then 1 else 0) + tail.2)

/-- Server-side session fields consulted by
`SessionManager.handleAudioChunk`: a Gemini connection object and the
`isActive` flag.  The handler consults no clock and no warmup flag. -/
structure ServerSessionState where
  hasGeminiConnection : Bool
  isActive : Bool
deriving DecidableEq, Repr

/-- Client-to-server messages relevant to the audio path. -/
inductive ServerMsgKind
| startSessionOk
| audioChunk
| endSession
deriving DecidableEq, Repr

/-- A message together with its arrival time in milliseconds since the
channel opened. -/
structure TimedServerMsg where
  atMs : Nat
  kind : ServerMsgKind
deriving DecidableEq, Repr

/-- Warmup window length of the client capture pipeline: the 500 ms
`setTimeout` that clears `isAudioWarmup`. -/
def warmupMs : Nat := 500

/-- One `SessionManager.handleMessage` step restricted to the audio path;
the boolean reports whether an `AUDIO_CHUNK` was forwarded upstream via
`geminiConnection.sendAudio`.  The arrival time is ignored because the
handler reads no clock: forwarding depends only on connection and
activity. -/
def serverStep (s : ServerSessionState) : ServerMsgKind → ServerSessionState × Bool
| .startSessionOk => ({ hasGeminiConnection := true, isActive := true }, false)
| .audioChunk => (s, s.hasGeminiConnection && s.isActive)
| .endSession => ({ hasGeminiConnection := false, isActive := false }, false)

/-- Run a list of timed messages, counting upstream audio forwards. -/
def runServer : ServerSessionState → List TimedServerMsg → ServerSessionState × Nat
| s, [] => (s, 0)
| s, m :: rest =>
    let step := serverStep s m.kind
    let tail := runServer step.1 rest
    (tail.1, (if step.2 then 1 else 0) + tail.2)

/-- Conversation roles tracked by `ToolDecisionAgent`. -/
inductive ConvRole
| user
| model
deriving DecidableEq, Repr

structure ConvMsg where
  role : ConvRole
  text : String
deriving DecidableEq, Repr

/-- History cap of `ToolDecisionAgent` (`maxHistoryLength = 20`). -/
def maxHistoryLength : Nat := 20

/-- Embedding of `trimHistory`: keep the last `maxHistoryLength` entries
(`slice(-maxHistoryLength)`). -/
def trimHistory (h : List ConvMsg) : List ConvMsg :=
  if maxHistoryLength < h.length then h.drop (h.length - maxHistoryLength) else h

/-- A function call extracted from the reasoning response. -/
structure FunctionCallRec where
  name : String
  argsText : String
deriving DecidableEq, Repr

structure ResponsePart where
  functionCall : Option FunctionCallRec
deriving DecidableEq, Repr

/-- A response candidate; an absent `content.parts` is modelled as the
empty part list. -/
structure Candidate where
  parts : List ResponsePart
deriving DecidableEq, Repr

structure GenResponse where
  candidates : List Candidate
deriving DecidableEq, Repr

/-- Embedding of the extraction loop: walk `candidates[0].content.parts`
and collect every `functionCall`. -/
def extractFunctionCalls (r : GenResponse) : List FunctionCallRec :=
  match r.candidates.head? with
  | some c => c.parts.filterMap (fun p => p.functionCall)
  | none => []

/-- History note pushed after a successful pass that produced calls. -/
def toolNote (fcs : List FunctionCallRec) : String :=
  "Called tools: " ++ String.intercalate ", " (fcs.map (fun fc => fc.name))

/-- Embedding of `ToolDecisionAgent.analyzeAndDecideTools`.  The reasoning
call is the only fallible step; its outcome arrives as an `Except`.  The
user message is pushed and the history trimmed before the guarded region;
the catch clause logs and returns the empty call list.  The result is an
`Except` so that an exception escaping the boundary would be visible as an
`.error` value. -/
def analyzeAndDecideTools (hist : List ConvMsg) (userInput : String)
    (genResult : Except String GenResponse) :
    Except String (List FunctionCallRec × List ConvMsg) :=
  let hist1 := trimHistory (hist ++ [{ role := .user, text := userInput }])
  match genResult with
  | .error _e => .ok ([], hist1)
  | .ok resp =>
      let fcs := extractFunctionCalls resp
      let hist2 :=
        if 0 < fcs.length then hist1 ++ [{ role := .model, text := toolNote fcs }]
        else hist1
      .ok (fcs, hist2)

/-! Helper characterizations of the DNA-update pipeline. -/

/-- Value a truthiness-guarded string field holds after `handleDNAUpdate`. -/
def strFieldAfter (o : Option String) (old : JVal) : JVal :=
  match o with
  | some s => if s = "" then old else .vstr s
  | none => old

/-- Value the colors field holds after `handleDNAUpdate`. -/
def colorsAfter (o : Option (List String)) (old : List String) : List String :=
  match o with
  | some l => if 0 < l.length then l else old
  | none => old

/-- Value the typography field holds after `handleDNAUpdate`. -/
def fontAfter (o : Option String) (old : List String) : List String :=
  match o with
  | some s => if s = "" then old else [s]
  | none => old

theorem update_name_proj (st : BrandState) (field : String) (v : JVal) (now : Nat) :
    (st.update field v now).dna.name = if field = "name" then v else st.dna.name := by
  unfold BrandState.update BrandState.updateProgress
  split_ifs <;> simp_all

theorem update_mission_proj (st : BrandState) (field : String) (v : JVal) (now : Nat) :
    (st.update field v now).dna.mission = if field = "mission" then v else st.dna.mission := by
  unfold BrandState.update BrandState.updateProgress
  split_ifs <;> simp_all

theorem update_colors_proj (st : BrandState) (field : String) (v : JVal) (now : Nat) :
    (st.update field v now).dna.colors = if field = "colors" then v.asArray else st.dna.colors := by
  unfold BrandState.update BrandState.updateProgress
  split_ifs <;> simp_all

theorem update_typography_proj (st : BrandState) (field : String) (v : JVal) (now : Nat) :
    (st.update field v now).dna.typography = if field = "typography" then v.asArray else st.dna.typography := by
  unfold BrandState.update BrandState.updateProgress
  split_ifs <;> simp_all

theorem update_voice_proj (st : BrandState) (field : String) (v : JVal) (now : Nat) :
    (st.update field v now).dna.voice = if field = "voice" then v else st.dna.voice := by
  unfold BrandState.update BrandState.updateProgress
  split_ifs <;> simp_all

theorem update_logoUrl_proj (st : BrandState) (field : String) (v : JVal) (now : Nat) :
    (st.update field v now).dna.logoUrl = if field = "logoUrl" then some v else st.dna.logoUrl := by
  unfold BrandState.update BrandState.updateProgress
  split_ifs <;> simp_all

theorem stepName_dna (o : Option String) (now : Nat) (st : BrandState) :
    (stepName o now st).dna.name = strFieldAfter o st.dna.name ∧
    (stepName o now st).dna.mission = st.dna.mission ∧
    (stepName o now st).dna.colors = st.dna.colors ∧
    (stepName o now st).dna.typography = st.dna.typography ∧
    (stepName o now st).dna.voice = st.dna.voice ∧
    (stepName o now st).dna.logoUrl = st.dna.logoUrl := by
  cases o <;>
    simp [stepName, strFieldAfter, update_name_proj, update_mission_proj, update_colors_proj,
      update_typography_proj, update_voice_proj, update_logoUrl_proj, apply_ite] <;>
    split_ifs <;> simp_all

theorem stepMission_dna (o : Option String) (now : Nat) (st : BrandState) :
    (stepMission o now st).dna.mission = strFieldAfter o st.dna.mission ∧
    (stepMission o now st).dna.name = st.dna.name ∧
    (stepMission o now st).dna.colors = st.dna.colors ∧
    (stepMission o now st).dna.typography = st.dna.typography ∧
    (stepMission o now st).dna.voice = st.dna.voice ∧
    (stepMission o now st).dna.logoUrl = st.dna.logoUrl := by
  cases o <;>
    simp [stepMission, strFieldAfter, update_name_proj, update_mission_proj, update_colors_proj,
      update_typography_proj, update_voice_proj, update_logoUrl_proj, apply_ite] <;>
    split_ifs <;> simp_all

theorem stepColors_dna (o : Option (List String)) (now : Nat) (st : BrandState) :
    (stepColors o now st).dna.colors = colorsAfter o st.dna.colors ∧
    (stepColors o now st).dna.name = st.dna.name ∧
    (stepColors o now st).dna.mission = st.dna.mission ∧
    (stepColors o now st).dna.typography = st.dna.typography ∧
    (stepColors o now st).dna.voice = st.dna.voice ∧
    (stepColors o now st).dna.logoUrl = st.dna.logoUrl := by
  cases o <;>
    simp [stepColors, colorsAfter, JVal.asArray, update_name_proj, update_mission_proj,
      update_colors_proj, update_typography_proj, update_voice_proj, update_logoUrl_proj, apply_ite] <;>
    split_ifs <;> simp_all [List.length_pos]

theorem stepFont_dna (o : Option String) (now : Nat) (st : BrandState) :
    (stepFont o now st).dna.typography = fontAfter o st.dna.typography ∧
    (stepFont o now st).dna.name = st.dna.name ∧
    (stepFont o now st).dna.mission = st.dna.mission ∧
    (stepFont o now st).dna.colors = st.dna.colors ∧
    (stepFont o now st).dna.voice = st.dna.voice ∧
    (stepFont o now st).dna.logoUrl = st.dna.logoUrl := by
  cases o <;>
    simp [stepFont, fontAfter, JVal.asArray, update_name_proj, update_mission_proj,
      update_colors_proj, update_typography_proj, update_voice_proj, update_logoUrl_proj, apply_ite] <;>
    split_ifs <;> simp_all

theorem stepVoice_dna (o : Option String) (now : Nat) (st : BrandState) :
    (stepVoice o now st).dna.voice = strFieldAfter o st.dna.voice ∧
    (stepVoice o now st).dna.name = st.dna.name ∧
    (stepVoice o now st).dna.mission = st.dna.mission ∧
    (stepVoice o now st).dna.colors = st.dna.colors ∧
    (stepVoice o now st).dna.typography = st.dna.typography ∧
    (stepVoice o now st).dna.logoUrl = st.dna.logoUrl := by
  cases o <;>
    simp [stepVoice, strFieldAfter, update_name_proj, update_mission_proj, update_colors_proj,
      update_typography_proj, update_voice_proj, update_logoUrl_proj, apply_ite] <;>
    split_ifs <;> simp_all

theorem handleDNAUpdate_dna (args : DNAArgs) (st : BrandState) (now : Nat) :
    (handleDNAUpdate args st now).dna =
      { name := strFieldAfter args.brandName st.dna.name
      , mission := strFieldAfter args.mission st.dna.mission
      , colors := colorsAfter args.selectedColors st.dna.colors
      , typography := fontAfter args.selectedFont st.dna.typography
      , voice := strFieldAfter args.voice st.dna.voice
      , logoUrl := st.dna.logoUrl } := by
  unfold handleDNAUpdate
  ext <;>
    simp [stepName_dna, stepMission_dna, stepColors_dna, stepFont_dna, stepVoice_dna,
      (stepName_dna _ _ _).1, (stepMission_dna _ _ _).1, (stepColors_dna _ _ _).1,
      (stepFont_dna _ _ _).1, (stepVoice_dna _ _ _).1,
      (stepName_dna _ _ _).2.1, (stepMission_dna _ _ _).2.1]

theorem strFieldAfter_idem (o : Option String) (x : JVal) :
    strFieldAfter o (strFieldAfter o x) = strFieldAfter o x := by
  cases o <;> simp [strFieldAfter] <;> split_ifs <;> simp_all [strFieldAfter]

theorem colorsAfter_idem (o : Option (List String)) (x : List String) :
    colorsAfter o (colorsAfter o x) = colorsAfter o x := by
  cases o <;> simp [colorsAfter] <;> split_ifs <;> simp_all [colorsAfter]

theorem fontAfter_idem (o : Option String) (x : List String) :
    fontAfter o (fontAfter o x) = fontAfter o x := by
  cases o <;> simp [fontAfter] <;> split_ifs <;> simp_all [fontAfter]

/-- C1: a DNA-update tool call writes only the argument fields it carries:
every DNA field whose argument is absent from the call keeps exactly its
previous value (so across any sequence of calls, a call carrying only a
subset of fields never clears a previously-set field absent from it). -/
theorem dnaUpdate_frame (args : DNAArgs) (st : BrandState) (now : Nat) :
    (args.brandName = none → (handleDNAUpdate args st now).dna.name = st.dna.name) ∧
    (args.mission = none → (handleDNAUpdate args st now).dna.mission = st.dna.mission) ∧
    (args.selectedColors = none → (handleDNAUpdate args st now).dna.colors = st.dna.colors) ∧
    (args.selectedFont = none → (handleDNAUpdate args st now).dna.typography = st.dna.typography) ∧
    (args.voice = none → (handleDNAUpdate args st now).dna.voice = st.dna.voice) ∧
    (handleDNAUpdate args st now).dna.logoUrl = st.dna.logoUrl := by
  refine ⟨fun h => ?_, fun h => ?_, fun h => ?_, fun h => ?_, fun h => ?_, ?_⟩ <;>
    simp [handleDNAUpdate_dna, strFieldAfter, colorsAfter, fontAfter, *]

/-- Witness for C1 at a concrete empty call on the initial state. -/
theorem dnaUpdate_frame_witness :
    (handleDNAUpdate ⟨none, none, none, none, none⟩ brandInit 0).dna.name = brandInit.dna.name :=
  (dnaUpdate_frame ⟨none, none, none, none, none⟩ brandInit 0).1 rfl

/-- C2: re-applying an identical DNA-update call is observably idempotent —
the emitted message (full DNA snapshot plus `updatedField` tag) after the
second application equals the one after the first, for any timestamps. -/
theorem dnaUpdate_idempotent (args : DNAArgs) (st : BrandState) (now now2 : Nat) :
    emitDNAUpdate args (handleDNAUpdate args st now) now2 = emitDNAUpdate args st now := by
  unfold emitDNAUpdate
  refine Prod.ext ?_ rfl
  simp only [handleDNAUpdate_dna]
  ext <;> simp [strFieldAfter_idem, colorsAfter_idem, fontAfter_idem]

/-- C6: the `updatedField` tag is the first argument field carried with a
JS-truthy value, in the priority order name, mission, colors, font
(typography), voice, defaulting to name. -/
theorem updatedField_priority_order (args : DNAArgs) :
    getUpdatedField args = specUpdatedField args := by
  obtain ⟨bn, mi, sc, sf, vo⟩ := args
  cases hb : jsTruthyStr bn <;> cases hm : jsTruthyStr mi <;> cases hc : sc.isSome <;>
    cases hf : jsTruthyStr sf <;> cases hv : jsTruthyStr vo <;>
    simp [getUpdatedField, specUpdatedField, dnaFieldCarried, List.find?, hb, hm, hc, hf, hv]

/-! Progress-list helper lemmas. -/

theorem findField_replaceOrAppend (l : List ProgressItem) (g f : ProgressField)
    (item : ProgressItem) (hfld : item.field = g) :
    findField f (replaceOrAppend l g item) = if g = f then some item else findField f l := by
  induction l with
  | nil =>
      by_cases hgf : g = f
      · subst hgf; simp [replaceOrAppend, findField, List.find?, hfld]
      · simp [replaceOrAppend, findField, List.find?, hfld, hgf]
  | cons p rest ih =>
      simp only [replaceOrAppend]
      by_cases hp : p.field = g
      · rw [if_pos hp]
        by_cases hgf : g = f
        · subst hgf
          simp [findField, List.find?, hfld]
        · have hif : ¬ item.field = f := by rw [hfld]; exact hgf
          have hpf : ¬ p.field = f := by rw [hp]; exact hgf
          simp [findField, List.find?, hif, hpf, hgf]
      · rw [if_neg hp]
        by_cases hpf : p.field = f
        · have hgf : ¬ g = f := fun h => hp (by rw [hpf, h])
          simp [findField, List.find?, hpf, hgf]
        · simp only [findField] at ih
          simp [findField, List.find?, hpf, ih]

theorem update_progress_proj (st : BrandState) (field : String) (v : JVal) (now : Nat) :
    (st.update field v now).progress =
      if field = "name" then
        replaceOrAppend st.progress .name ⟨.name, v, false, now⟩
      else if field = "mission" then
        replaceOrAppend st.progress .mission ⟨.mission, v, false, now⟩
      else if field = "colors" then
        replaceOrAppend st.progress .colors ⟨.colors, .varr v.asArray, false, now⟩
      else if field = "typography" then
        replaceOrAppend st.progress .font ⟨.font, headJVal v.asArray, false, now⟩
      else if field = "voice" then
        replaceOrAppend st.progress .voice ⟨.voice, v, false, now⟩
      else st.progress := by
  unfold BrandState.update BrandState.updateProgress
  split_ifs <;> simp_all

theorem stepName_find (o : Option String) (now : Nat) (st : BrandState) (f : ProgressField)
    (hf : f ≠ ProgressField.name) :
    findField f (stepName o now st).progress = findField f st.progress := by
  cases o <;> simp only [stepName] <;> split_ifs <;>
    simp_all [update_progress_proj, findField_replaceOrAppend, Ne.symm hf]

theorem stepMission_find (o : Option String) (now : Nat) (st : BrandState) (f : ProgressField)
    (hf : f ≠ ProgressField.mission) :
    findField f (stepMission o now st).progress = findField f st.progress := by
  cases o <;> simp only [stepMission] <;> split_ifs <;>
    simp_all [update_progress_proj, findField_replaceOrAppend, Ne.symm hf]

theorem stepColors_find (o : Option (List String)) (now : Nat) (st : BrandState)
    (f : ProgressField) (hf : f ≠ ProgressField.colors) :
    findField f (stepColors o now st).progress = findField f st.progress := by
  cases o <;> simp only [stepColors] <;> split_ifs <;>
    simp_all [update_progress_proj, findField_replaceOrAppend, Ne.symm hf]

theorem stepFont_find (o : Option String) (now : Nat) (st : BrandState) (f : ProgressField)
    (hf : f ≠ ProgressField.font) :
    findField f (stepFont o now st).progress = findField f st.progress := by
  cases o <;> simp only [stepFont] <;> split_ifs <;>
    simp_all [update_progress_proj, findField_replaceOrAppend, Ne.symm hf]

theorem stepVoice_find (o : Option String) (now : Nat) (st : BrandState) (f : ProgressField)
    (hf : f ≠ ProgressField.voice) :
    findField f (stepVoice o now st).progress = findField f st.progress := by
  cases o <;> simp only [stepVoice] <;> split_ifs <;>
    simp_all [update_progress_proj, findField_replaceOrAppend, Ne.symm hf]

theorem stepName_falsy (o : Option String) (now : Nat) (st : BrandState)
    (h : jsTruthyStr o = false) : stepName o now st = st := by
  cases o <;> simp_all [stepName, jsTruthyStr]

theorem stepMission_falsy (o : Option String) (now : Nat) (st : BrandState)
    (h : jsTruthyStr o = false) : stepMission o now st = st := by
  cases o <;> simp_all [stepMission, jsTruthyStr]

theorem stepFont_falsy (o : Option String) (now : Nat) (st : BrandState)
    (h : jsTruthyStr o = false) : stepFont o now st = st := by
  cases o <;> simp_all [stepFont, jsTruthyStr]

theorem stepVoice_falsy (o : Option String) (now : Nat) (st : BrandState)
    (h : jsTruthyStr o = false) : stepVoice o now st = st := by
  cases o <;> simp_all [stepVoice, jsTruthyStr]

theorem stepColors_not_pos (o : Option (List String)) (now : Nat) (st : BrandState)
    (h : o = none ∨ o = some []) : stepColors o now st = st := by
  rcases h with h | h <;> subst h <;> simp [stepColors]

/-- C10 counterexample: the call carrying only `selectedColors := []` — a
field the claim classifies as falsy/absent — changes no DNA field, yet the
emitted tag is `colors`, not the claimed `name`: in JS an empty array is
truthy, so `getUpdatedField` picks it.  The current time of the call is 0.
-/
theorem truthiness_empty_array_counterexample :
    (handleDNAUpdate
        { brandName := none, mission := none, selectedColors := some []
        , selectedFont := none, voice := none } brandInit 0).dna = brandInit.dna ∧
    getUpdatedField
        { brandName := none, mission := none, selectedColors := some []
        , selectedFont := none, voice := none } = .colors ∧
    UpdatedField.colors ≠ UpdatedField.name := by
  refine ⟨rfl, rfl, by simp⟩

/-- C10 amended: the handler tests truthiness, not presence.  A string
field carried as the empty string, or `selectedColors` carried as the empty
array, leaves its DNA field and its progress entry unchanged.  A call all
of whose carried fields are JS-falsy emits `updatedField = name`; but an
empty array is JS-truthy, so a call whose string fields are all falsy and
whose `selectedColors` is the empty array still changes no DNA field while
emitting `updatedField = colors`. -/
theorem truthiness_amended (args : DNAArgs) (st : BrandState) (now : Nat) :
    (args.brandName = some "" →
      (handleDNAUpdate args st now).dna.name = st.dna.name ∧
      findField .name (handleDNAUpdate args st now).progress = findField .name st.progress) ∧
    (args.mission = some "" →
      (handleDNAUpdate args st now).dna.mission = st.dna.mission ∧
      findField .mission (handleDNAUpdate args st now).progress = findField .mission st.progress) ∧
    (args.voice = some "" →
      (handleDNAUpdate args st now).dna.voice = st.dna.voice ∧
      findField .voice (handleDNAUpdate args st now).progress = findField .voice st.progress) ∧
    (args.selectedFont = some "" →
      (handleDNAUpdate args st now).dna.typography = st.dna.typography ∧
      findField .font (handleDNAUpdate args st now).progress = findField .font st.progress) ∧
    (args.selectedColors = some [] →
      (handleDNAUpdate args st now).dna.colors = st.dna.colors ∧
      findField .colors (handleDNAUpdate args st now).progress = findField .colors st.progress) ∧
    (jsTruthyStr args.brandName = false → jsTruthyStr args.mission = false →
     jsTruthyStr args.selectedFont = false → jsTruthyStr args.voice = false →
      (args.selectedColors = none →
        (handleDNAUpdate args st now).dna = st.dna ∧ getUpdatedField args = .name) ∧
      (args.selectedColors = some [] →
        (handleDNAUpdate args st now).dna = st.dna ∧ getUpdatedField args = .colors)) := by
  refine ⟨fun h => ⟨?_, ?_⟩, fun h => ⟨?_, ?_⟩, fun h => ⟨?_, ?_⟩, fun h => ⟨?_, ?_⟩,
    fun h => ⟨?_, ?_⟩, fun h1 h2 h3 h4 => ⟨fun h5 => ⟨?_, ?_⟩, fun h5 => ⟨?_, ?_⟩⟩⟩
  · simp [handleDNAUpdate_dna, h, strFieldAfter]
  · unfold handleDNAUpdate
    rw [stepVoice_find _ _ _ _ (by simp), stepFont_find _ _ _ _ (by simp),
      stepColors_find _ _ _ _ (by simp), stepMission_find _ _ _ _ (by simp),
      stepName_falsy _ _ _ (by simp [h, jsTruthyStr])]
  · simp [handleDNAUpdate_dna, h, strFieldAfter]
  · unfold handleDNAUpdate
    rw [stepVoice_find _ _ _ _ (by simp), stepFont_find _ _ _ _ (by simp),
      stepColors_find _ _ _ _ (by simp), stepMission_falsy _ _ _ (by simp [h, jsTruthyStr]),
      stepName_find _ _ _ _ (by simp)]
  · simp [handleDNAUpdate_dna, h, strFieldAfter]
  · unfold handleDNAUpdate
    rw [stepVoice_falsy _ _ _ (by simp [h, jsTruthyStr]), stepFont_find _ _ _ _ (by simp),
      stepColors_find _ _ _ _ (by simp), stepMission_find _ _ _ _ (by simp),
      stepName_find _ _ _ _ (by simp)]
  · simp [handleDNAUpdate_dna, h, fontAfter]
  · unfold handleDNAUpdate
    rw [stepVoice_find _ _ _ _ (by simp), stepFont_falsy _ _ _ (by simp [h, jsTruthyStr]),
      stepColors_find _ _ _ _ (by simp), stepMission_find _ _ _ _ (by simp),
      stepName_find _ _ _ _ (by simp)]
  · simp [handleDNAUpdate_dna, h, colorsAfter]
  · unfold handleDNAUpdate
    rw [stepVoice_find _ _ _ _ (by simp), stepFont_find _ _ _ _ (by simp),
      stepColors_not_pos _ _ _ (Or.inr h), stepMission_find _ _ _ _ (by simp),
      stepName_find _ _ _ _ (by simp)]
  · refine BrandDNA.ext ?_ ?_ ?_ ?_ ?_ ?_ <;>
      simp [handleDNAUpdate_dna, h5, strFieldAfter, colorsAfter, fontAfter] <;>
      cases hbn : args.brandName <;> cases hmi : args.mission <;>
      cases hsf : args.selectedFont <;> cases hvo : args.voice <;>
      simp_all [jsTruthyStr, strFieldAfter, fontAfter]
  · simp [getUpdatedField, h1, h2, h3, h4, h5]
  · refine BrandDNA.ext ?_ ?_ ?_ ?_ ?_ ?_ <;>
      simp [handleDNAUpdate_dna, h5, strFieldAfter, colorsAfter, fontAfter] <;>
      cases hbn : args.brandName <;> cases hmi : args.mission <;>
      cases hsf : args.selectedFont <;> cases hvo : args.voice <;>
      simp_all [jsTruthyStr, strFieldAfter, fontAfter]
  · simp [getUpdatedField, h1, h2, h3, h4, h5]

/-- Witness for the amended C10 at a concrete call: empty brand name and
empty color array on the initial state at time 0. -/
theorem truthiness_amended_witness :
    (handleDNAUpdate
        { brandName := some "", mission := none, selectedColors := some []
        , selectedFont := none, voice := none } brandInit 0).dna = brandInit.dna ∧
    getUpdatedField
        { brandName := some "", mission := none, selectedColors := some []
        , selectedFont := none, voice := none } = .colors :=
  ((truthiness_amended
      { brandName := some "", mission := none, selectedColors := some []
      , selectedFont := none, voice := none } brandInit 0).2.2.2.2.2
    rfl rfl rfl rfl).2 rfl

/-! Lemmas for the progress-list invariants (C9). -/

theorem update_progress_shape (st : BrandState) (field : String) (v : JVal) (now : Nat) :
    (st.update field v now).progress =
      match progressFieldOf field with
      | some g => replaceOrAppend st.progress g ⟨g, progressValue field v, false, now⟩
      | none => st.progress := by
  rw [update_progress_proj]
  unfold progressFieldOf progressValue
  split_ifs <;> simp_all

theorem fields_replaceOrAppend (l : List ProgressItem) (g : ProgressField)
    (item : ProgressItem) (hfld : item.field = g) :
    (replaceOrAppend l g item).map (fun p => p.field) =
      if g ∈ l.map (fun p => p.field) then l.map (fun p => p.field)
      else l.map (fun p => p.field) ++ [g] := by
  induction l with
  | nil => simp [replaceOrAppend, hfld]
  | cons p rest ih =>
      simp only [replaceOrAppend]
      by_cases hp : p.field = g
      · simp [hp, hfld]
      · have hne : ¬ g = p.field := fun h => hp h.symm
        simp [hp, hne, ih]
        split_ifs <;> simp_all

theorem fields_setFinalized (b : Bool) (l : List ProgressItem) (g : ProgressField) :
    (setFinalized b l g).map (fun p => p.field) = l.map (fun p => p.field) := by
  induction l with
  | nil => simp [setFinalized]
  | cons p rest ih =>
      simp only [setFinalized]
      split_ifs <;> simp_all

theorem findField_setFinalized_ne (b : Bool) (l : List ProgressItem) (g f : ProgressField)
    (h : ¬ g = f) :
    findField f (setFinalized b l g) = findField f l := by
  induction l with
  | nil => simp [setFinalized]
  | cons p rest ih =>
      simp only [setFinalized]
      by_cases hp : p.field = g
      · have hpf : ¬ p.field = f := by rw [hp]; exact h
        rw [if_pos hp]
        simp [findField, List.find?, hpf]
      · rw [if_neg hp]
        by_cases hpf : p.field = f
        · simp [findField, List.find?, hpf]
        · simp only [findField, List.find?] at ih ⊢
          simp [hpf, ih]

theorem findField_setFinalized_self (b : Bool) (l : List ProgressItem) (f : ProgressField) :
    findField f (setFinalized b l f) =
      (findField f l).map (fun p => { p with finalized := b }) := by
  induction l with
  | nil => simp [setFinalized, findField]
  | cons p rest ih =>
      simp only [setFinalized]
      by_cases hp : p.field = f
      · simp [hp, findField, List.find?]
      · simp only [findField, List.find?] at ih ⊢
        simp [hp, ih]

theorem applyOp_fin_find (st : BrandState) (g f : ProgressField) (h : ¬ g = f) :
    findField f (applyOp st (.fin g)).progress = findField f st.progress := by
  simp only [applyOp, BrandState.finalize]
  cases hq : findField g st.progress <;> simp [findField_setFinalized_ne _ _ _ _ h]

theorem applyOp_unfin_find (st : BrandState) (g f : ProgressField) (h : ¬ g = f) :
    findField f (applyOp st (.unfin g)).progress = findField f st.progress := by
  simp only [applyOp, BrandState.unfinalizeForEdit]
  cases hq : findField g st.progress <;> simp [findField_setFinalized_ne _ _ _ _ h]

theorem applyOps_append (st : BrandState) (l1 l2 : List BrandOp) :
    applyOps st (l1 ++ l2) = applyOps (applyOps st l1) l2 := by
  simp [applyOps, List.foldl_append]

theorem applyOp_fields_nodup (st : BrandState) (op : BrandOp)
    (h : (st.progress.map (fun p => p.field)).Nodup) :
    ((applyOp st op).progress.map (fun p => p.field)).Nodup := by
  cases op with
  | upd field v now =>
      simp only [applyOp]
      rw [update_progress_shape]
      cases hg : progressFieldOf field with
      | none => exact h
      | some g =>
          simp only
          rw [fields_replaceOrAppend st.progress g _ rfl]
          split_ifs with hmem
          · exact h
          · simp [List.nodup_append, h, hmem]
  | fin g =>
      simp only [applyOp, BrandState.finalize]
      cases hq : findField g st.progress <;> simp [fields_setFinalized, h]
  | unfin g =>
      simp only [applyOp, BrandState.unfinalizeForEdit]
      cases hq : findField g st.progress <;> simp [fields_setFinalized, h]

theorem applyOps_fields_nodup_general (ops : List BrandOp) (st : BrandState)
    (h : (st.progress.map (fun p => p.field)).Nodup) :
    ((applyOps st ops).progress.map (fun p => p.field)).Nodup := by
  induction ops generalizing st with
  | nil => exact h
  | cons op rest ih => exact ih _ (applyOp_fields_nodup st op h)

theorem applyOps_singleton (st : BrandState) (op : BrandOp) :
    applyOps st [op] = applyOp st op := rfl

theorem applyOp_unfin_self_find (st : BrandState) (g : ProgressField) :
    findField g (applyOp st (.unfin g)).progress =
      (findField g st.progress).map (fun p => { p with finalized := false }) := by
  simp only [applyOp, BrandState.unfinalizeForEdit]
  cases hq : findField g st.progress with
  | none => simp [hq]
  | some q => simp [findField_setFinalized_self, hq]

theorem finalized_imp_fin (ops : List BrandOp) (f : ProgressField) :
    ∀ p : ProgressItem,
      findField f (applyOps brandInit ops).progress = some p → p.finalized = true →
      ∃ l1 l2, ops = l1 ++ BrandOp.fin f :: l2 ∧ ∀ op ∈ l2, ¬ opWritesField f op := by
  induction ops using List.reverseRecOn with
  | nil => intro p hp _; simp [applyOps, brandInit, findField] at hp
  | append_singleton l op ih =>
      intro p hp hfin
      rw [applyOps_append, applyOps_singleton] at hp
      cases op with
      | fin g =>
          by_cases hg : g = f
          · subst hg
            exact ⟨l, [], rfl, by simp⟩
          · rw [applyOp_fin_find _ _ _ hg] at hp
            obtain ⟨l1, l2, heq, hcl⟩ := ih p hp hfin
            refine ⟨l1, l2 ++ [.fin g], by rw [heq]; simp, ?_⟩
            intro o ho
            rcases List.mem_append.mp ho with ho | ho
            · exact hcl o ho
            · simp at ho; subst ho; simp [opWritesField]
      | unfin g =>
          by_cases hg : g = f
          · subst hg
            rw [applyOp_unfin_self_find] at hp
            cases hq : findField g (applyOps brandInit l).progress with
            | none => rw [hq] at hp; simp at hp
            | some q =>
                rw [hq] at hp
                simp at hp
                rw [← hp] at hfin
                simp at hfin
          · rw [applyOp_unfin_find _ _ _ hg] at hp
            obtain ⟨l1, l2, heq, hcl⟩ := ih p hp hfin
            refine ⟨l1, l2 ++ [.unfin g], by rw [heq]; simp, ?_⟩
            intro o ho
            rcases List.mem_append.mp ho with ho | ho
            · exact hcl o ho
            · simp at ho; subst ho; simp [opWritesField]
      | upd field v now =>
          simp only [applyOp] at hp
          rw [update_progress_shape] at hp
          cases hpf : progressFieldOf field with
          | none =>
              rw [hpf] at hp
              simp only at hp
              obtain ⟨l1, l2, heq, hcl⟩ := ih p hp hfin
              refine ⟨l1, l2 ++ [.upd field v now], by rw [heq]; simp, ?_⟩
              intro o ho
              rcases List.mem_append.mp ho with ho | ho
              · exact hcl o ho
              · simp at ho; subst ho; simp [opWritesField, hpf]
          | some g =>
              rw [hpf] at hp
              simp only at hp
              by_cases hg : g = f
              · subst hg
                rw [findField_replaceOrAppend _ g g _ rfl] at hp
                simp at hp
                rw [← hp] at hfin
                simp at hfin
              · rw [findField_replaceOrAppend _ g f _ rfl, if_neg hg] at hp
                obtain ⟨l1, l2, heq, hcl⟩ := ih p hp hfin
                refine ⟨l1, l2 ++ [.upd field v now], by rw [heq]; simp, ?_⟩
                intro o ho
                rcases List.mem_append.mp ho with ho | ho
                · exact hcl o ho
                · simp at ho; subst ho; simp [opWritesField, hpf, hg]

/-- C9: over every operation sequence from the initial state, the progress
list holds at most one entry per tracked field; an update of an
already-tracked field leaves the field list unchanged (replaces, never
appends) and installs a fresh entry with `finalized := false`; and an entry
can only be finalized by an explicit finalize of that field occurring after
the field's most recent update. -/
theorem progress_invariants (ops : List BrandOp) :
    ((applyOps brandInit ops).progress.map (fun p => p.field)).Nodup ∧
    (∀ (field : String) (value : JVal) (now : Nat) (g : ProgressField),
      progressFieldOf field = some g →
      g ∈ (applyOps brandInit ops).progress.map (fun p => p.field) →
      ((applyOps brandInit ops).update field value now).progress.map (fun p => p.field) =
        (applyOps brandInit ops).progress.map (fun p => p.field)) ∧
    (∀ (field : String) (value : JVal) (now : Nat) (g : ProgressField),
      progressFieldOf field = some g →
      findField g ((applyOps brandInit ops).update field value now).progress =
        some { field := g, value := progressValue field value
             , finalized := false, timestamp := now }) ∧
    (∀ (f : ProgressField) (p : ProgressItem),
      findField f (applyOps brandInit ops).progress = some p → p.finalized = true →
      ∃ l1 l2, ops = l1 ++ BrandOp.fin f :: l2 ∧ ∀ op ∈ l2, ¬ opWritesField f op) := by
  refine ⟨applyOps_fields_nodup_general ops brandInit (by simp [brandInit]), ?_, ?_,
    finalized_imp_fin ops⟩
  · intro field value now g hg hmem
    rw [update_progress_shape, hg]
    simp only
    rw [fields_replaceOrAppend _ g _ rfl, if_pos hmem]
  · intro field value now g hg
    rw [update_progress_shape, hg]
    simp only
    rw [findField_replaceOrAppend _ g g _ rfl, if_pos rfl]

/-- Witness for C9: one name update followed by its explicit finalize; the
finalized entry forces the required split of the operation list. -/
theorem progress_invariants_witness :
    ∃ l1 l2, [BrandOp.upd "name" (.vstr "Acme") 0, .fin .name] =
        l1 ++ BrandOp.fin ProgressField.name :: l2 ∧
      ∀ op ∈ l2, ¬ opWritesField ProgressField.name op :=
  (progress_invariants [BrandOp.upd "name" (.vstr "Acme") 0, .fin .name]).2.2.2
    ProgressField.name ⟨.name, .vstr "Acme", true, 0⟩ rfl rfl

/-! Run lemmas for the capture-pipeline and server audio machines. -/

theorem runClient_append (s : ClientAudioState) (l1 l2 : List ClientEvent) :
    runClient s (l1 ++ l2) =
      ((runClient (runClient s l1).1 l2).1,
       (runClient s l1).2 + (runClient (runClient s l1).1 l2).2) := by
  induction l1 generalizing s with
  | nil => simp [runClient]
  | cons e rest ih => simp [runClient, ih, Nat.add_assoc]

theorem locked_no_forward (evs : List ClientEvent) : ∀ s : ClientAudioState,
    (s.toolProcessing = true ∨ s.hasSession = false) →
    (∀ e ∈ evs, e ≠ ClientEvent.serverContent true) →
    (runClient s evs).2 = 0 := by
  induction evs with
  | nil => intro s _ _; rfl
  | cons e rest ih =>
      intro s hs he
      have hrest : ∀ x ∈ rest, x ≠ ClientEvent.serverContent true :=
        fun x hx => he x (List.mem_cons_of_mem _ hx)
      cases e with
      | captureFrame =>
          rcases hs with h | h
          · simpa [runClient, clientStep, h] using ih s (Or.inl h) hrest
          · simpa [runClient, clientStep, h] using ih s (Or.inr h) hrest
      | toolCallRequested =>
          simpa [runClient, clientStep] using ih _ (Or.inl rfl) hrest
      | serverContent m =>
          have hm : m = false := by
            cases m
            · rfl
            · exact absurd rfl (he _ (List.mem_cons_self _ _))
          subst hm
          simpa [runClient, clientStep] using ih _ hs hrest
      | warmupDone =>
          rcases hs with h | h <;>
            simpa [runClient, clientStep, h] using ih _ (by simp [h]) hrest
      | sessionClosed =>
          simpa [runClient, clientStep] using ih _ (Or.inr rfl) hrest

theorem warm_no_forward (evs : List ClientEvent) : ∀ cs : ClientAudioState,
    cs.audioWarmup = true →
    (∀ e ∈ evs, e ≠ ClientEvent.warmupDone) →
    (runClient cs evs).2 = 0 := by
  induction evs with
  | nil => intro cs _ _; rfl
  | cons e rest ih =>
      intro cs hw he
      have hrest : ∀ x ∈ rest, x ≠ ClientEvent.warmupDone :=
        fun x hx => he x (List.mem_cons_of_mem _ hx)
      cases e with
      | captureFrame =>
          simpa [runClient, clientStep, hw] using ih cs hw hrest
      | toolCallRequested =>
          simpa [runClient, clientStep] using ih _ (by simp [hw]) hrest
      | serverContent m =>
          by_cases hm : m && cs.toolProcessing
          · simpa [runClient, clientStep, hm] using ih _ (by simp [hw]) hrest
          · simpa [runClient, clientStep, hm] using ih _ (by simp [hw]) hrest
      | warmupDone =>
          exact absurd rfl (he _ (List.mem_cons_self _ _))
      | sessionClosed =>
          simpa [runClient, clientStep] using ih _ (by simp) hrest

theorem server_forwards_all (msgs : List TimedServerMsg) : ∀ s : ServerSessionState,
    s.hasGeminiConnection = true → s.isActive = true →
    (∀ m ∈ msgs, m.kind = ServerMsgKind.audioChunk) →
    (runServer s msgs).2 = msgs.length := by
  induction msgs with
  | nil => intro s _ _ _; rfl
  | cons m rest ih =>
      intro s h1 h2 hm
      have hk : m.kind = ServerMsgKind.audioChunk := hm m (List.mem_cons_self _ _)
      have hrest : ∀ x ∈ rest, x.kind = ServerMsgKind.audioChunk :=
        fun x hx => hm x (List.mem_cons_of_mem _ hx)
      simp [runServer, serverStep, hk, h1, h2, ih s h1 h2 hrest, Nat.add_comm]

/-- C3: in any run of the client capture machine, once a tool call is
requested, no capture frame is forwarded upstream until a server message
carrying model content arrives; the lock is still held right after the tool
call (tool-response acknowledgment does not release it, so chained tool
calls stay suppressed), and receipt of model content is what releases it.
-/
theorem micLock_between_toolCall_and_content (s0 : ClientAudioState)
    (pre post : List ClientEvent)
    (h : ∀ e ∈ post, e ≠ ClientEvent.serverContent true) :
    (runClient (runClient s0 (pre ++ [ClientEvent.toolCallRequested])).1 post).2 = 0 ∧
    ((runClient s0 (pre ++ [ClientEvent.toolCallRequested])).1).toolProcessing = true ∧
    (∀ s : ClientAudioState, s.toolProcessing = true →
      (clientStep s (ClientEvent.serverContent true)).1.toolProcessing = false) := by
  have hstate : ((runClient s0 (pre ++ [ClientEvent.toolCallRequested])).1).toolProcessing = true := by
    rw [runClient_append]
    simp [runClient, clientStep]
  refine ⟨locked_no_forward post _ (Or.inl hstate) h, hstate, ?_⟩
  intro s hs
  simp [clientStep, hs]

/-- Witness for C3: a live session takes a tool call, then sees a capture
frame, a second tool call, a content-free server message and another
capture frame: zero frames are forwarded. -/
theorem micLock_between_toolCall_and_content_witness :
    (runClient
        (runClient ⟨false, false, true⟩ ([] ++ [ClientEvent.toolCallRequested])).1
        [ClientEvent.captureFrame, ClientEvent.toolCallRequested,
         ClientEvent.serverContent false, ClientEvent.captureFrame]).2 = 0 :=
  (micLock_between_toolCall_and_content ⟨false, false, true⟩ []
    [ClientEvent.captureFrame, ClientEvent.toolCallRequested,
     ClientEvent.serverContent false, ClientEvent.captureFrame]
    (by decide)).1

/-- C4: each playback unit starts at `max(now, end of previous unit)`; in
particular when the second unit arrives within the first unit's duration,
it starts exactly at the first unit's end — no gap, no overlap. -/
theorem playback_gapless_schedule (st : PlaybackState) (t1 t2 : ℚ) (n1 n2 : Nat)
    (h12 : t1 ≤ t2) (hgap : t2 - t1 < (n1 : ℚ) / outputSampleRate) :
    (playAudio st t1 n1).1 = max t1 st.nextPlayTime ∧
    (playAudio (playAudio st t1 n1).2 t2 n2).1 =
      max t2 ((playAudio st t1 n1).2).nextPlayTime ∧
    (playAudio (playAudio st t1 n1).2 t2 n2).1 =
      (playAudio st t1 n1).1 + (n1 : ℚ) / outputSampleRate := by
  refine ⟨rfl, rfl, ?_⟩
  show max t2 (max t1 st.nextPlayTime + (n1 : ℚ) / outputSampleRate) =
    max t1 st.nextPlayTime + (n1 : ℚ) / outputSampleRate
  apply max_eq_right
  have h1 : t1 ≤ max t1 st.nextPlayTime := le_max_left _ _
  linarith

/-- Witness for C4: two 24000-sample units (one second each at 24 kHz)
arriving at the same instant on a fresh timeline. -/
theorem playback_gapless_schedule_witness :
    (playAudio (playAudio ⟨0, 0, []⟩ 0 24000).2 0 24000).1 =
      (playAudio ⟨0, 0, []⟩ 0 24000).1 + (24000 : ℚ) / outputSampleRate :=
  (playback_gapless_schedule ⟨0, 0, []⟩ 0 0 24000 24000 (le_refl 0)
    (by simp [outputSampleRate])).2.2

/-- C5 counterexample: the server forwards an `AUDIO_CHUNK` that arrives
100 ms after the session opened — well inside the 500 ms warmup window —
because `SessionManager.handleAudioChunk` has no warmup logic at all: the
forward count is 1, where the claim demands 0. -/
theorem warmup_server_forwards_counterexample :
    (runServer ⟨false, false⟩
        [⟨0, ServerMsgKind.startSessionOk⟩, ⟨100, ServerMsgKind.audioChunk⟩]).2 = 1 ∧
    100 - 0 < warmupMs :=
  ⟨rfl, by decide⟩

/-- C5 amended: the server applies no warmup window — once the session is
active every `AUDIO_CHUNK` is forwarded regardless of arrival time.  The
warmup discard lives in the client-direct capture pipeline: while the
warmup flag is set, every capture frame is dropped (not queued), and once
the 500 ms timeout clears the flag a capture frame in a live, unlocked
session is forwarded. -/
theorem warmup_discard_amended (s : ServerSessionState) (msgs : List TimedServerMsg)
    (cs : ClientAudioState) (evs : List ClientEvent)
    (hs1 : s.hasGeminiConnection = true) (hs2 : s.isActive = true)
    (hmsgs : ∀ m ∈ msgs, m.kind = ServerMsgKind.audioChunk)
    (hw : cs.audioWarmup = true)
    (hevs : ∀ e ∈ evs, e ≠ ClientEvent.warmupDone) :
    (runServer s msgs).2 = msgs.length ∧
    (runClient cs evs).2 = 0 ∧
    (clientStep ⟨false, false, true⟩ ClientEvent.captureFrame).2 = true :=
  ⟨server_forwards_all msgs s hs1 hs2 hmsgs, warm_no_forward evs cs hw hevs, rfl⟩

/-- Witness for the amended C5: an active server session forwarding two
chunks, and a warming-up client dropping two capture frames. -/
theorem warmup_discard_amended_witness :
    (runServer ⟨true, true⟩
        [⟨0, ServerMsgKind.audioChunk⟩, ⟨100, ServerMsgKind.audioChunk⟩]).2 = 2 ∧
    (runClient ⟨true, false, true⟩
        [ClientEvent.captureFrame, ClientEvent.captureFrame]).2 = 0 :=
  ⟨(warmup_discard_amended ⟨true, true⟩
      [⟨0, ServerMsgKind.audioChunk⟩, ⟨100, ServerMsgKind.audioChunk⟩]
      ⟨true, false, true⟩ [ClientEvent.captureFrame, ClientEvent.captureFrame]
      rfl rfl (by decide) rfl (by decide)).1,
   (warmup_discard_amended ⟨true, true⟩
      [⟨0, ServerMsgKind.audioChunk⟩, ⟨100, ServerMsgKind.audioChunk⟩]
      ⟨true, false, true⟩ [ClientEvent.captureFrame, ClientEvent.captureFrame]
      rfl rfl (by decide) rfl (by decide)).2.1⟩

/-- C7: the tool-decision pass is total — it yields an `ok` outcome for
every reasoning-call result — and when the reasoning call fails it returns
the empty tool-call list (the failure never escapes the boundary; the agent
holds no client transport, so nothing user-visible is emitted). -/
theorem decisionAgent_failure_returns_empty (hist : List ConvMsg) (userInput : String)
    (genResult : Except String GenResponse) :
    (∃ out, analyzeAndDecideTools hist userInput genResult = Except.ok out) ∧
    (∀ e, genResult = Except.error e →
      analyzeAndDecideTools hist userInput genResult =
        Except.ok ([], trimHistory (hist ++ [{ role := .user, text := userInput }]))) := by
  constructor
  · cases genResult <;> exact ⟨_, rfl⟩
  · intro e he
    subst he
    rfl

/-- Witness for C7: a failing reasoning call on an empty history. -/
theorem decisionAgent_failure_returns_empty_witness :
    analyzeAndDecideTools [] "show me fonts" (Except.error "network failure") =
      Except.ok ([], trimHistory ([] ++ [{ role := ConvRole.user, text := "show me fonts" }])) :=
  (decisionAgent_failure_returns_empty [] "show me fonts"
    (Except.error "network failure")).2 "network failure" rfl

/-- C8 counterexample: with one in-flight unit and the cursor at 5 s, an
interrupt issued while the clock reads 3 s resets the cursor to 0 — not to
the claimed current time 3 (`stopPlayback` writes the constant 0 and never
reads the clock). -/
theorem interrupt_cursor_zero_counterexample :
    (stopPlayback ⟨5, 1, [0]⟩).2.nextPlayTime = 0 ∧ ((0 : ℚ) ≠ 3) ∧
    (stopPlayback ⟨5, 1, [0]⟩).1 = [0] ∧
    (stopPlayback ⟨5, 1, [0]⟩).2.activeSources = [] :=
  ⟨rfl, by decide, rfl, rfl⟩

/-- C8 amended: an interrupt stops every tracked in-flight unit, clears the
tracking set, and resets the cursor to zero; because each later unit starts
at `max(now, cursor)`, every subsequently scheduled unit still starts at or
after the current time. -/
theorem interrupt_stops_and_never_past (st : PlaybackState) :
    (stopPlayback st).1 = st.activeSources ∧
    (stopPlayback st).2.activeSources = [] ∧
    (stopPlayback st).2.nextPlayTime = 0 ∧
    (∀ (now : ℚ) (n : Nat), now ≤ (playAudio (stopPlayback st).2 now n).1) :=
  ⟨rfl, rfl, rfl, fun _ _ => le_max_left _ _⟩

end Beevo
